import Mathlib

/-!
# Verification of the process-communication core of vscOctaveDebugger

Shallow embedding of `src/Runtime.ts` and `src/Control/Expression.ts`:
the injected-marker synchronization protocol, the FIFO handler queue that
pairs primary-stream output with the command that produced it, and the
event dispatch on the secondary stream.

Lines of text exchanged with the subprocess are modelled as `List Char`
(`Line`); JavaScript string operations become list operations.  The
stateful `Runtime` object becomes an explicit state record (`RState`)
threaded through step functions; the `logger`/`console` side effects and
the callbacks invoked by handlers are recorded as an explicit list of
`Output` events, in the order the source performs them.  Handler closures
(the `(str: string) => boolean` values pushed on `_inputHandler`) are
defunctionalized: each closure kind appearing in the source becomes a
constructor of `Handler` carrying the closure's captured mutable state.
-/

/-- A single line of text, as delivered by the `readline` interfaces
(hence containing no newline terminator). -/
abbrev Line := List Char

/-! ## Decimal rendering of tokens

JavaScript's `${id}` template interpolation renders a nonnegative integer
in decimal with no leading zeros.  `decRepr` embeds that rendering.
Fuel-based recursion keeps the definition reducible by the kernel. -/

/-- Decimal digits of `n`, most significant first; `fuel` bounds the
recursion depth (any `fuel > n` is enough). -/
def decAux : Nat → Nat → Line
  | 0, _ => []
  | fuel + 1, n =>
    if n < 10 then [Nat.digitChar n]
    else decAux fuel (n / 10) ++ [Nat.digitChar (n % 10)]

/-- The decimal string of a nonnegative integer, as produced by
JavaScript template interpolation of a number. -/
def decRepr (n : Nat) : Line := decAux (n + 1) n

theorem decAux_fuel_irrel : ∀ (f₁ f₂ n : Nat), n < f₁ → n < f₂ →
    decAux f₁ n = decAux f₂ n := by
  intro f₁
  induction f₁ with
  | zero => intro f₂ n h₁; omega
  | succ g ih =>
    intro f₂ n h₁ h₂
    cases f₂ with
    | zero => omega
    | succ g₂ =>
      simp only [decAux]
      by_cases hn : n < 10
      · simp [hn]
      · simp only [hn, if_false]
        have hlt : n / 10 < g := by
          have h10 : 10 ≤ n := by omega
          have := Nat.div_lt_self (by omega : 0 < n) (by omega : 1 < 10)
          omega
        rw [ih g₂ (n / 10) hlt (by
          have := Nat.div_lt_self (by omega : 0 < n) (by omega : 1 < 10)
          omega)]

/-- Numeric value of a decimal digit string (left inverse of `decRepr`). -/
def decVal (l : Line) : Nat :=
  l.foldl (fun a c => 10 * a + (c.toNat - 48)) 0

theorem decVal_append (l : Line) (c : Char) :
    decVal (l ++ [c]) = 10 * decVal l + (c.toNat - 48) := by
  simp [decVal, List.foldl_append]

theorem digitChar_toNat {d : Nat} (h : d < 10) :
    (Nat.digitChar d).toNat = 48 + d := by
  interval_cases d <;> decide

theorem decVal_decRepr (n : Nat) : decVal (decRepr n) = n := by
  induction n using Nat.strong_induction_on with
  | _ n ih =>
    by_cases hn : n < 10
    · simp only [decRepr, decAux, hn, if_true, decVal, List.foldl]
      have := digitChar_toNat hn
      omega
    · have h10 : 10 ≤ n := by omega
      have hlt : n / 10 < n := Nat.div_lt_self (by omega) (by omega)
      simp only [decRepr, decAux, hn, if_false]
      rw [decAux_fuel_irrel n (n / 10 + 1) (n / 10) hlt (Nat.lt_succ_self _)]
      rw [show decAux (n / 10 + 1) (n / 10) = decRepr (n / 10) from rfl]
      rw [decVal_append, ih (n / 10) hlt]
      have hm : n % 10 < 10 := Nat.mod_lt _ (by omega)
      rw [digitChar_toNat hm]
      omega

theorem decRepr_injective {n m : Nat} (h : decRepr n = decRepr m) : n = m := by
  have := decVal_decRepr n
  rw [h, decVal_decRepr] at this
  omega

/-! ## Protocol strings (`Runtime.ts` statics)

`PROMPT`, `PROMPT_REGEX`, `SYNC`, `SYNC_REGEX`, `syncString` and
`syncRegEx` from `src/Runtime.ts`.  The regular expressions in the source
are simple enough to embed by their match semantics:

* `PROMPT_REGEX = ^(?:debug> )*` used with `String.replace` removes the
  maximal run of leading `PROMPT` copies (`stripPrompt`);
* `syncRegEx(id) = ^(?:debug> )*vsc::<module>:<id>$` matches a line iff the
  line is some number of `PROMPT` copies followed by exactly
  `syncString id` (`matchesSyncRegEx`);
* `SYNC_REGEX` is built from the template literal
  `^(?:${PROMPT})*\s*${SYNC}`: inside a JavaScript template literal the
  escape `\s` denotes the plain character `s`, so the compiled pattern is
  `^(?:debug> )*s*vsc::<module>`, unanchored at the end
  (`matchesSYNC_REGEX`).
-/

/-- `Runtime.PROMPT = 'debug> '`. -/
def PROMPT : Line := "debug> ".data

/-- Modelled from the spec: the value of `Constants.MODULE_NAME`
(`src/Constants.ts` is not among the provided sources; `Runtime.SYNC`
interpolates it).  The spec fixes only that the marker uses a fixed
namespace string emitted verbatim by the subprocess's print primitive, so
any fixed name free of regex metacharacters works; we use the extension's
module name. -/
def MODULE_NAME : Line := "OctaveDebugger".data

/-- `Runtime.SYNC = `vsc::${Constants.MODULE_NAME}``. -/
def SYNC : Line := "vsc::".data ++ MODULE_NAME

/-- `Runtime.syncString(id) = `${Runtime.SYNC}:${id}``. -/
def syncString (id : Nat) : Line := SYNC ++ ':' :: decRepr id

/-- `n` concatenated copies of `PROMPT`. -/
def promptRep : Nat → Line
  | 0 => []
  | n + 1 => PROMPT ++ promptRep n

/-- Match semantics of `Runtime.syncRegEx(id)`, the anchored pattern
`^(?:debug> )*${syncString(id)}$`: the line is a run of prompt copies
followed by exactly the marker text.  The run length is bounded by the
line length, which loses nothing since `PROMPT` is nonempty. -/
def matchesSyncRegEx (id : Nat) (line : Line) : Bool :=
  (List.range (line.length + 1)).any fun n =>
    line == promptRep n ++ syncString id

/-- Match semantics of `Runtime.SYNC_REGEX`, the unanchored pattern
`^(?:debug> )*s*${SYNC}`: some prefix of the line is a run of prompt
copies, then a run of `s`, then `SYNC`. -/
def matchesSYNC_REGEX (line : Line) : Bool :=
  (List.range (line.length + 1)).any fun n =>
    (List.range (line.length + 1)).any fun k =>
      (promptRep n ++ List.replicate k 's' ++ SYNC).isPrefixOf line

/-- `str.replace(Runtime.PROMPT_REGEX, '')`: remove the maximal run of
leading `PROMPT` copies.  Fuel-based recursion (each strip removes the
seven characters of `PROMPT`, so `line.length` steps are plenty). -/
def stripPromptAux : Nat → Line → Line
  | 0, l => l
  | fuel + 1, l =>
    if PROMPT.isPrefixOf l then stripPromptAux fuel (l.drop PROMPT.length)
    else l

/-- Maximal leading-prompt stripping, the effect of
`str.replace(Runtime.PROMPT_REGEX, '')`. -/
def stripPrompt (l : Line) : Line := stripPromptAux l.length l

/-- JavaScript `String.prototype.trim`: drop whitespace from both ends
(for the ASCII whitespace appearing in this protocol). -/
def trimLine (l : Line) : Line :=
  ((l.dropWhile Char.isWhitespace).reverse.dropWhile Char.isWhitespace).reverse

/-- `str.replace(Runtime.PROMPT_REGEX, '').trim()`, the normalization the
source applies to every line consumed as handler content. -/
def stripTrim (l : Line) : Line := trimLine (stripPrompt l)

/-! ## Handler content accumulation -/

/-- One content step of the closure in `Runtime.evaluate`: normalize the
line; if nonempty, append it to the running value, separating with a
newline when the value is already nonempty. -/
def joinStep (v : Line) (l : Line) : Line :=
  let s := stripTrim l
  if s.length ≠ 0 then
    if v.length ≠ 0 then v ++ '\n' :: s else s
  else v

/-- Join a list of lines with newline separators (the spec's
"newline-join"). -/
def newlineJoin : List Line → Line
  | [] => []
  | [x] => x
  | x :: xs => x ++ '\n' :: newlineJoin xs

/-- The spec's description of an `evaluate` result: the newline-join of
the non-empty normalized content lines. -/
def specJoin (B : List Line) : Line :=
  newlineJoin (((B.map stripTrim).filter fun l => !l.isEmpty))

/-- The claim C2's literal description of an `evaluate` result: the
newline-join of the non-empty prompt-stripped (but not
whitespace-trimmed) content lines. -/
def specJoinStrippedOnly (B : List Line) : Line :=
  newlineJoin (((B.map stripPrompt).filter fun l => !l.isEmpty))

/-! ## The `isFunction` descriptor pattern (`Control/Expression.ts`)

`Expression.isFunction` builds
`` new RegExp(`^.*'${expression}' is a (?:\\S+ )?function from the file .*$`) ``,
i.e. the pattern `^.*'<name>' is a (?:\S+ )?function from the file .*$`.
The lines tested against it come from `readline` and contain no newline,
so `.` matches every character; the pattern then matches iff the line
decomposes as: anything, `'<name>' is a `, optionally a nonempty run of
non-whitespace characters followed by one space, `function from the
file `, anything. -/

/-- The literal part of the pattern before the optional word. -/
def isFuncNeedle (name : Line) : Line := "'".data ++ name ++ "' is a ".data

/-- The literal part of the pattern after the optional word. -/
def isFuncTailStr : Line := "function from the file ".data

/-- Matcher for what follows `'<name>' is a ` in the pattern:
`(?:\S+ )?function from the file ` then anything. -/
def isFuncAfter (rest : Line) : Bool :=
  isFuncTailStr.isPrefixOf rest ||
    (List.range (rest.length + 1)).any fun k =>
      decide (1 ≤ k) && (rest.take k).all (fun c => !c.isWhitespace) &&
        match rest.drop k with
        | ' ' :: r => isFuncTailStr.isPrefixOf r
        | _ => false

/-- Match semantics of the `isFuncRegex` of `Expression.isFunction`.
The interpolated `name` is taken literally, which is faithful for names
free of regex metacharacters (Octave identifiers are). -/
def isFuncMatches (name : Line) (line : Line) : Bool :=
  (List.range (line.length + 1)).any fun i =>
    (isFuncNeedle name).isPrefixOf (line.drop i) &&
      isFuncAfter ((line.drop i).drop (isFuncNeedle name).length)

/-! ## The session state machine (`Runtime.ts`)

The `Runtime` object's mutable fields become the record `RState`; its
side effects (calls to `logger`, handler callbacks, `emit`) become
`Output` events listed in the order the source performs them.  The
diagnostic text built from `processName` and the command counter in
`Runtime.send`/`Runtime.debug` is plain logging and is not modelled;
the `warn`/`debug` events that classify stream lines are. -/

/-- One handler closure pushed on `Runtime._inputHandler`, with the
closure's captured mutable state.  `cid` is a ghost identifier naming the
call that created the handler, so a callback can be attributed to its
call; it has no effect on behavior.

* `evalH` — the closure of `Runtime.evaluate` (captures `value`);
* `waitH` — the closure of `Runtime.waitSync`;
* `isFuncH` — the closure of `Expression.isFunction` (captures `val`). -/
inductive Handler
  | evalH (cid : Nat) (tok : Nat) (value : Line)
  | waitH (cid : Nat) (tok : Nat)
  | isFuncH (cid : Nat) (name : Line) (tok : Nat) (val : Option Line)
  deriving DecidableEq, Repr

/-- A callback invocation performed by a resolving handler, with the
value passed to the caller's callback. -/
inductive Cb
  | evalDone (cid : Nat) (value : Line)
  | waitDone (cid : Nat)
  | isFuncDone (cid : Nat) (val : Option Line)
  deriving DecidableEq, Repr

/-- An observable effect of the session: a `logger.log` of classified
output (`debug`), a `logger.warn` of unclassified output (`warn`), a
caller callback (`callback`), the invocation of the `i`-th registered
event handler returning `r` (`evCall`), or an `EventEmitter.emit`
(`emit`). -/
inductive Output
  | debug (s : Line)
  | warn (s : Line)
  | callback (c : Cb)
  | evCall (i : Nat) (r : Bool)
  | emit (signal : String)
  deriving DecidableEq, Repr

/-- The mutable state of a `Runtime` session: the command counter, the
two handler lists, the unclassified-output buffer and its flag, plus a
ghost record `sent` of the commands written to the subprocess's stdin (in
order; each is written with a trailing `\n` terminator on the wire). -/
structure RState where
  commandNumber : Nat
  inputHandler : List Handler
  eventHandler : List (Line → Bool)
  stdoutBuffer : Line
  stdoutHandled : Bool
  sent : List Line

/-- A fresh session as `connect` leaves it (before any command):
counter `c`, both handler lists empty, empty buffer, flag down. -/
def initState (c : Nat) : RState :=
  { commandNumber := c, inputHandler := [], eventHandler := [],
    stdoutBuffer := [], stdoutHandled := false, sent := [] }

/-- Run one handler closure on a line: returns the closure's boolean
result (`true` = line consumed, handler complete), the closure with its
captured state updated, and the callbacks it invoked. -/
def runHandler : Handler → Line → Bool × Handler × List Output
  | .evalH cid tok v, line =>
    if matchesSyncRegEx tok line then
      (true, .evalH cid tok v, [.callback (.evalDone cid v)])
    else
      (false, .evalH cid tok (joinStep v line), [])
  | .waitH cid tok, line =>
    if matchesSyncRegEx tok line then
      (true, .waitH cid tok, [.callback (.waitDone cid)])
    else
      (false, .waitH cid tok, [])
  | .isFuncH cid name tok v, line =>
    if matchesSyncRegEx tok line then
      (true, .isFuncH cid name tok v, [.callback (.isFuncDone cid v)])
    else
      (false,
       .isFuncH cid name tok
         (if isFuncMatches name line then some (stripTrim line) else v),
       [])

namespace Runtime

/-- `Runtime.send(cmd)`: bump the command counter and write the command
(the write itself appends the `\n` terminator). -/
def send (st : RState) (cmd : Line) : RState :=
  { st with commandNumber := st.commandNumber + 1, sent := st.sent ++ [cmd] }

/-- `Runtime.echo(str) = `printf("${str}\n")``. -/
def echo (s : Line) : Line := "printf(\"".data ++ s ++ "\\n\")".data

/-- `Runtime.sync()`: read the current command counter as the token and
send the echo-marker command for it. -/
def sync (st : RState) : Nat × RState :=
  let id := st.commandNumber
  (id, send st (echo (syncString id)))

/-- `Runtime.addInputHandler`. -/
def addInputHandler (st : RState) (h : Handler) : RState :=
  { st with inputHandler := st.inputHandler ++ [h] }

/-- `Runtime.addEventHandler`. -/
def addEventHandler (st : RState) (p : Line → Bool) : RState :=
  { st with eventHandler := st.eventHandler ++ [p] }

/-- `Runtime.evaluate(expression, callback)`: push the accumulating
closure, send the expression, then send the echo-marker for a fresh
token.  In the source the closure is pushed first and its `syncRegex` is
assigned after the two sends; no stream event can run in between (the
body is synchronous), so the handler is enqueued here directly with the
token the `sync()` call yields, which leaves the state identical. -/
def evaluate (cid : Nat) (expression : Line) (st : RState) : RState :=
  let st1 := send st expression
  let p := sync st1
  addInputHandler p.2 (.evalH cid p.1 [])

/-- `Runtime.waitSync(callback)`: push the marker-waiting closure, then
send the echo-marker (same assign-after-push note as `evaluate`). -/
def waitSync (cid : Nat) (st : RState) : RState :=
  let p := sync st
  addInputHandler p.2 (.waitH cid p.1)

/-- `Runtime.waitSend(cmd, callback)`. -/
def waitSend (cid : Nat) (cmd : Line) (st : RState) : RState :=
  waitSync cid (send st cmd)

/-- `Runtime.onStdout(data)`: pop the front handler (if any) and run it
on the line; a handler that does not consume the line is pushed back and
the line joins the unclassified buffer; on a consumed line or an empty
queue, either flush the buffer to the log (when the flag is up or the
line looks like a sync marker) or warn about the line. -/
def onStdout (st : RState) (data : Line) : RState × List Output :=
  match st.inputHandler with
  | [] =>
    if st.stdoutHandled || matchesSYNC_REGEX data then
      ({ st with stdoutBuffer := [], stdoutHandled := false },
       [.debug st.stdoutBuffer])
    else
      (st, [.warn data])
  | h :: rest =>
    let r := runHandler h data
    if r.1 then
      if st.stdoutHandled || matchesSYNC_REGEX data then
        ({ st with inputHandler := rest, stdoutBuffer := [],
                   stdoutHandled := false },
         r.2.2 ++ [.debug st.stdoutBuffer])
      else
        ({ st with inputHandler := rest }, r.2.2 ++ [.warn data])
    else
      ({ st with inputHandler := r.2.1 :: rest, stdoutHandled := true,
                 stdoutBuffer := st.stdoutBuffer ++ data },
       r.2.2)

/-- `Array.prototype.some` over `Runtime._eventHandler`: invoke the
predicates in registration order, stopping at the first that returns
`true`; record each invocation (`i` is the predicate's registration
index). -/
def someDispatch : List (Line → Bool) → Nat → Line → List Output
  | [], _, _ => []
  | p :: ps, i, l =>
    if p l then [.evCall i true]
    else .evCall i false :: someDispatch ps (i + 1) l

/-- `Runtime.onStderr(data)`: dispatch the line to the event handlers
via `some`, then warn about it (unconditionally in the source). -/
def onStderr (st : RState) (data : Line) : RState × List Output :=
  (st, someDispatch st.eventHandler 0 data ++ [.warn data])

/-- `Runtime.onExit(code)`: emit the one-shot `exit` signal (the
accompanying `logger` text is not modelled). -/
def onExit (st : RState) (_code : Int) : RState × List Output :=
  (st, [.emit "exit"])

/-- `Runtime.onError(err)`: emit the `error` signal (the message
assembly and logging are not modelled). -/
def onError (st : RState) : RState × List Output :=
  (st, [.emit "error"])

/-- Deliver a list of primary-stream lines, one `onStdout` step each,
concatenating the outputs. -/
def runStdout : RState → List Line → RState × List Output
  | st, [] => (st, [])
  | st, l :: ls =>
    let r := onStdout st l
    let rr := runStdout r.1 ls
    (rr.1, r.2 ++ rr.2)

end Runtime

namespace Expression

/-- `Expression.isFunction(expression, runtime, callback)`: push the
pattern-testing closure, send `which <expression>`, then the echo-marker
for a fresh token (same assign-after-push note as `Runtime.evaluate`). -/
def isFunction (cid : Nat) (expression : Line) (st : RState) : RState :=
  let st1 := Runtime.send st ("which ".data ++ expression)
  let p := Runtime.sync st1
  Runtime.addInputHandler p.2 (.isFuncH cid expression p.1 none)

/-- `Expression.evaluate(expression, runtime, isConsole, callback)`: in
console mode, evaluate `expression.substr(1)`; otherwise resolve the
symbol first (the nested continuation that evaluates when the symbol is
not a function runs inside the `isFunction` callback and is exercised
through `Runtime.evaluate` separately). -/
def evaluate (cid : Nat) (expression : Line) (isConsole : Bool)
    (st : RState) : RState :=
  if isConsole then Runtime.evaluate cid (expression.drop 1) st
  else isFunction cid expression st

end Expression

/-! ## Traces -/

/-- One event delivered to the session by the host's event loop: a line
on the primary stream, a line on the secondary stream, the subprocess's
`close` event, or a process error. -/
inductive PEvent
  | outLine (l : Line)
  | errLine (l : Line)
  | closed (code : Int)
  | errored
  deriving Repr

/-- Whether the event is a primary-stream line. -/
def PEvent.isOutLine : PEvent → Bool
  | .outLine _ => true
  | _ => false

/-- Whether the event is the subprocess's `close` event. -/
def PEvent.isClosed : PEvent → Bool
  | .closed _ => true
  | _ => false

/-- Dispatch one event to the handler the source registers for it in
`connect`. -/
def runEventStep (st : RState) : PEvent → RState × List Output
  | .outLine l => Runtime.onStdout st l
  | .errLine l => Runtime.onStderr st l
  | .closed code => Runtime.onExit st code
  | .errored => Runtime.onError st

/-- Deliver a list of events to the session. -/
def runEvents : RState → List PEvent → RState × List Output
  | st, [] => (st, [])
  | st, e :: es =>
    let r := runEventStep st e
    let rr := runEvents r.1 es
    (rr.1, r.2 ++ rr.2)

/-- The callback invocations among a list of outputs, in order. -/
def callbackOuts (outs : List Output) : List Cb :=
  outs.filterMap fun o =>
    match o with
    | .callback cb => some cb
    | _ => none

/-- One caller-side API call on the session, for stating token and
ordering invariants over arbitrary call sequences. -/
inductive Op
  | sendOp (cmd : Line)
  | syncOp
  | evaluateOp (cid : Nat) (expression : Line)
  | isFunctionOp (cid : Nat) (expression : Line)
  | waitSyncOp (cid : Nat)
  | waitSendOp (cid : Nat) (cmd : Line)

/-- Perform one API call; the second component lists the sync tokens the
call obtained from `Runtime.sync` (at most one per call). -/
def runOp (st : RState) : Op → RState × List Nat
  | .sendOp cmd => (Runtime.send st cmd, [])
  | .syncOp => let p := Runtime.sync st; (p.2, [p.1])
  | .evaluateOp cid e => (Runtime.evaluate cid e st, [st.commandNumber + 1])
  | .isFunctionOp cid e => (Expression.isFunction cid e st, [st.commandNumber + 1])
  | .waitSyncOp cid => (Runtime.waitSync cid st, [st.commandNumber])
  | .waitSendOp cid cmd => (Runtime.waitSend cid cmd st, [st.commandNumber + 1])

/-- Perform a sequence of API calls, concatenating the tokens obtained. -/
def runOps : RState → List Op → RState × List Nat
  | st, [] => (st, [])
  | st, op :: ops =>
    let r := runOp st op
    let rr := runOps r.1 ops
    (rr.1, r.2 ++ rr.2)

/-! ## Concurrent `evaluate` batches (for the FIFO ordering claims) -/

/-- Issue a batch of `evaluate` calls back to back, none waiting for the
previous callback: `items` lists, per call, the ghost call id, the
expression, and (for stating the property) the block of content lines the
subprocess will produce for that command. -/
def runEvaluates : RState → List (Nat × Line × List Line) → RState
  | st, [] => st
  | st, (cid, e, _) :: rest => runEvaluates (Runtime.evaluate cid e st) rest

/-- The primary-stream traffic such a batch produces when the subprocess
executes the commands serially: each call's content block followed by its
own marker line, in call order.  `c` is the session's command counter
when the batch starts, so the `i`-th call's token is `c + 2i + 1`. -/
def streamOf : Nat → List (Nat × Line × List Line) → List Line
  | _, [] => []
  | c, (_, _, B) :: rest => B ++ syncString (c + 1) :: streamOf (c + 2) rest

/-- The queue of handlers such a batch enqueues. -/
def handlersOf : Nat → List (Nat × Line × List Line) → List Handler
  | _, [] => []
  | c, (cid, _, _) :: rest => .evalH cid (c + 1) [] :: handlersOf (c + 2) rest

/-- Requirement on the content blocks: no content line of a block is
itself the marker line its call is waiting for. -/
def blocksOk : Nat → List (Nat × Line × List Line) → Bool
  | _, [] => true
  | c, (_, _, B) :: rest =>
    B.all (fun l => !matchesSyncRegEx (c + 1) l) && blocksOk (c + 2) rest

/-! ## Lemmas about the sync protocol strings -/

theorem promptRep_length (n : Nat) : (promptRep n).length = 7 * n := by
  induction n with
  | zero => rfl
  | succ m ih => simp [promptRep, ih, PROMPT]; ring

theorem promptRep_append (n m : Nat) :
    promptRep (n + m) = promptRep n ++ promptRep m := by
  induction n with
  | zero => simp [promptRep]
  | succ k ih => simp [promptRep, Nat.succ_add, ih]

/-- `matchesSyncRegEx` holds exactly on prompt-runs followed by the
marker: the bound `line.length` in the definition loses nothing. -/
theorem matchesSyncRegEx_iff (id : Nat) (line : Line) :
    matchesSyncRegEx id line = true ↔
      ∃ n, line = promptRep n ++ syncString id := by
  constructor
  · intro h
    rcases List.any_eq_true.mp h with ⟨n, _, hn⟩
    exact ⟨n, by simpa using hn⟩
  · rintro ⟨n, rfl⟩
    apply List.any_eq_true.mpr
    refine ⟨n, List.mem_range.mpr ?_, by simp⟩
    have := promptRep_length n
    have : n ≤ (promptRep n).length := by omega
    simp only [List.length_append]
    omega

theorem PROMPT_cons : PROMPT = 'd' :: "ebug> ".data := by decide

/-- No marker string starts with the prompt (`SYNC` begins with `v`,
the prompt with `d`), so a prompt run before a marker factors uniquely. -/
theorem not_prompt_prefix_SYNC (r : Line) : ¬ PROMPT <+: (SYNC ++ r) := by
  rintro ⟨t, ht⟩
  have hS : SYNC = 'v' :: "sc::OctaveDebugger".data := by decide
  rw [PROMPT_cons, hS] at ht
  simp at ht

theorem not_prompt_prefix_syncString (id : Nat) :
    ¬ PROMPT <+: syncString id :=
  not_prompt_prefix_SYNC (':' :: decRepr id)

/-- Unique factorization of a line into a prompt run and a remainder not
starting with the prompt. -/
theorem promptRep_factor : ∀ (n m : Nat) (x y : Line),
    ¬ PROMPT <+: x → ¬ PROMPT <+: y →
    promptRep n ++ x = promptRep m ++ y → n = m ∧ x = y := by
  intro n
  induction n with
  | zero =>
    intro m x y hx hy h
    cases m with
    | zero => simpa using h
    | succ k =>
      exfalso
      apply hx
      simp only [promptRep, List.nil_append, List.append_assoc] at h
      exact ⟨promptRep k ++ y, h.symm⟩
  | succ k ih =>
    intro m x y hx hy h
    cases m with
    | zero =>
      exfalso
      apply hy
      simp only [promptRep, List.nil_append, List.append_assoc] at h
      exact ⟨promptRep k ++ x, h⟩
    | succ j =>
      simp only [promptRep, List.append_assoc] at h
      have h' := List.append_cancel_left h
      obtain ⟨h1, h2⟩ := ih j x y hx hy h'
      exact ⟨by omega, h2⟩

theorem syncString_injective {t t' : Nat} (h : syncString t = syncString t') :
    t = t' := by
  simp only [syncString] at h
  have h' := List.append_cancel_left h
  exact decRepr_injective (List.cons.injEq .. ▸ h').2

/-! ## Lemmas about prompt stripping -/

theorem stripPromptAux_succ (f : Nat) (l : Line) :
    stripPromptAux (f + 1) l =
      if PROMPT.isPrefixOf l then stripPromptAux f (l.drop PROMPT.length)
      else l := rfl

theorem stripPromptAux_nil (f : Nat) : stripPromptAux f [] = [] := by
  cases f with
  | zero => rfl
  | succ g =>
    rw [stripPromptAux_succ, if_neg]
    intro h
    exact absurd h (by decide)

theorem stripPromptAux_fuel : ∀ (f₁ f₂ : Nat) (l : Line),
    l.length ≤ f₁ → l.length ≤ f₂ → stripPromptAux f₁ l = stripPromptAux f₂ l := by
  intro f₁
  induction f₁ with
  | zero =>
    intro f₂ l h₁ _
    have : l = [] := List.length_eq_zero.mp (by omega)
    subst this
    rw [stripPromptAux_nil, stripPromptAux_nil]
  | succ g ih =>
    intro f₂ l h₁ h₂
    have hP : PROMPT.length = 7 := by decide
    by_cases hp : PROMPT.isPrefixOf l
    · have hpre : PROMPT <+: l := List.isPrefixOf_iff_prefix.mp hp
      have hlen : 7 ≤ l.length := by
        have := hpre.length_le
        omega
      cases f₂ with
      | zero => omega
      | succ g₂ =>
        rw [stripPromptAux_succ, stripPromptAux_succ, if_pos hp, if_pos hp]
        apply ih
        · rw [List.length_drop, hP]; omega
        · rw [List.length_drop, hP]; omega
    · cases f₂ with
      | zero =>
        have : l = [] := List.length_eq_zero.mp (by omega)
        subst this
        rw [stripPromptAux_nil, stripPromptAux_nil]
      | succ g₂ =>
        rw [stripPromptAux_succ, stripPromptAux_succ, if_neg hp, if_neg hp]

theorem stripPrompt_prompt (s : Line) :
    stripPrompt (PROMPT ++ s) = stripPrompt s := by
  have hp : PROMPT.isPrefixOf (PROMPT ++ s) = true :=
    List.isPrefixOf_iff_prefix.mpr ⟨s, rfl⟩
  have hP : PROMPT.length = 7 := by decide
  have hlen : (PROMPT ++ s).length = s.length + 6 + 1 := by
    rw [List.length_append]
    omega
  rw [stripPrompt, hlen, stripPromptAux_succ, if_pos hp,
    List.drop_left PROMPT s]
  exact stripPromptAux_fuel _ _ s (by omega) (le_refl _)

theorem stripPrompt_promptRep (n : Nat) (s : Line) :
    stripPrompt (promptRep n ++ s) = stripPrompt s := by
  induction n with
  | zero => simp [promptRep]
  | succ k ih =>
    calc stripPrompt (promptRep (k + 1) ++ s)
        = stripPrompt (PROMPT ++ (promptRep k ++ s)) := by
          simp [promptRep, List.append_assoc]
      _ = stripPrompt (promptRep k ++ s) := stripPrompt_prompt _
      _ = stripPrompt s := ih

theorem stripTrim_promptRep (n : Nat) (s : Line) :
    stripTrim (promptRep n ++ s) = stripTrim s := by
  simp [stripTrim, stripPrompt_promptRep]

/-! ## Lemmas about content accumulation -/

theorem newlineJoin_cons (x : Line) (xs : List Line) (h : xs ≠ []) :
    newlineJoin (x :: xs) = x ++ '\n' :: newlineJoin xs := by
  cases xs with
  | nil => exact absurd rfl h
  | cons y ys => rfl

theorem newlineJoin_ne_nil (x : Line) (xs : List Line) (hx : x ≠ []) :
    newlineJoin (x :: xs) ≠ [] := by
  cases xs with
  | nil => simpa [newlineJoin]
  | cons y ys =>
    simp only [newlineJoin]
    cases x with
    | nil => exact absurd rfl hx
    | cons c cs => simp

theorem specJoin_cons (l : Line) (ls : List Line) :
    specJoin (l :: ls) =
      if stripTrim l = [] then specJoin ls
      else newlineJoin
        (stripTrim l :: ((ls.map stripTrim).filter fun x => !x.isEmpty)) := by
  by_cases hs : stripTrim l = []
  · simp [specJoin, hs]
  · have hne : (stripTrim l).isEmpty = false := by
      cases h : stripTrim l with
      | nil => exact absurd h hs
      | cons c cs => rfl
    rw [if_neg hs]
    simp [specJoin, hne]

theorem specJoin_eq_nil_iff (B : List Line) :
    specJoin B = [] ↔ ((B.map stripTrim).filter fun x => !x.isEmpty) = [] := by
  constructor
  · intro h
    cases hfil : ((B.map stripTrim).filter fun x => !x.isEmpty) with
    | nil => rfl
    | cons x xs =>
      exfalso
      have hx : x ≠ [] := by
        have hmem : x ∈ (B.map stripTrim).filter fun x => !x.isEmpty := by
          rw [hfil]; exact List.mem_cons_self _ _
        have := List.of_mem_filter hmem
        intro hxe
        subst hxe
        simp at this
      have heq : specJoin B = newlineJoin (x :: xs) := by rw [specJoin, hfil]
      rw [heq] at h
      exact newlineJoin_ne_nil x xs hx h
  · intro h
    rw [specJoin, h]
    rfl

/-- The running value of the `Runtime.evaluate` closure over a block of
content lines is the newline-join of the block's nonempty normalized
lines (appended after the preceding value when that is nonempty). -/
theorem foldl_joinStep (B : List Line) :
    List.foldl joinStep [] B = specJoin B ∧
      ∀ v : Line, v ≠ [] →
        List.foldl joinStep v B =
          if specJoin B = [] then v else v ++ '\n' :: specJoin B := by
  induction B with
  | nil => exact ⟨rfl, fun v _ => rfl⟩
  | cons l ls ih =>
    by_cases hs : stripTrim l = []
    · have hstep : ∀ v : Line, joinStep v l = v := by
        intro v
        simp [joinStep, hs]
      have hspec : specJoin (l :: ls) = specJoin ls := by
        rw [specJoin_cons, if_pos hs]
      constructor
      · rw [List.foldl_cons, hstep, ih.1, hspec]
      · intro v hv
        rw [List.foldl_cons, hstep, ih.2 v hv, hspec]
    · have hslen : (stripTrim l).length ≠ 0 := by
        intro h
        exact hs (List.length_eq_zero.mp h)
      have hcons : specJoin (l :: ls) =
          if specJoin ls = [] then stripTrim l
          else stripTrim l ++ '\n' :: specJoin ls := by
        rw [specJoin_cons, if_neg hs]
        by_cases hnil : specJoin ls = []
        · rw [(specJoin_eq_nil_iff ls).mp hnil, if_pos hnil]
          rfl
        · have hfil : ((ls.map stripTrim).filter fun x => !x.isEmpty) ≠ [] := by
            intro h
            exact hnil ((specJoin_eq_nil_iff ls).mpr h)
          rw [newlineJoin_cons _ _ hfil, if_neg hnil]
          rfl
      have hne : specJoin (l :: ls) ≠ [] := by
        rw [hcons]
        by_cases hnil : specJoin ls = []
        · simpa [hnil]
        · simp only [hnil, if_false]
          cases h : stripTrim l with
          | nil => exact absurd h hs
          | cons c cs => simp
      constructor
      · rw [List.foldl_cons]
        have hj : joinStep [] l = stripTrim l := by simp [joinStep, hslen]
        rw [hj, (ih.2) (stripTrim l) hs, hcons]
      · intro v hv
        have hvlen : v.length ≠ 0 := by
          intro h
          exact hv (List.length_eq_zero.mp h)
        have hj : joinStep v l = v ++ '\n' :: stripTrim l := by
          simp [joinStep, hslen, hvlen]
        rw [if_neg hne, List.foldl_cons, hj,
          (ih.2) (v ++ '\n' :: stripTrim l) (by simp), hcons]
        by_cases hnil : specJoin ls = []
        · rw [if_pos hnil, if_pos hnil]
        · rw [if_neg hnil, if_neg hnil]
          simp [List.append_assoc]

/-- Overwriting-on-match accumulation remembers the LAST matching line:
the source's `val = str...` inside `if (match !== null)` replaces any
earlier match. -/
theorem foldl_lastMatch (name : Line) (B : List Line) : ∀ v : Option Line,
    B.foldl (fun v l => if isFuncMatches name l then some (stripTrim l) else v) v
      = ((B.reverse.find? (isFuncMatches name)).map stripTrim).or v := by
  induction B using List.reverseRecOn with
  | nil => intro v; rfl
  | append_singleton ys y ih =>
    intro v
    rw [List.foldl_append]
    simp only [List.foldl_cons, List.foldl_nil, List.reverse_append,
      List.reverse_singleton, List.singleton_append]
    by_cases hy : isFuncMatches name y
    · simp [List.find?, hy, Option.or]
    · simp only [List.find?, hy, Bool.false_eq_true, if_false]
      exact ih v

/-! ## Derived views of `runHandler`

Every handler closure in the source follows the same shape: test the line
against the captured sync matcher; on a match invoke the callback with
the captured value and return `true`; otherwise update the captured value
and return `false`.  `Handler.tok`, `Handler.step` and `Handler.doneCb`
name the three ingredients, and `runHandler_eq` proves `runHandler` is
exactly that shape. -/

/-- The sync token whose marker the handler is waiting for. -/
def Handler.tok : Handler → Nat
  | .evalH _ t _ => t
  | .waitH _ t => t
  | .isFuncH _ _ t _ => t

/-- The update a handler applies to its captured state on a content
(non-marker) line. -/
def Handler.step : Handler → Line → Handler
  | .evalH cid t v, line => .evalH cid t (joinStep v line)
  | .waitH cid t, _ => .waitH cid t
  | .isFuncH cid name t v, line =>
    .isFuncH cid name t
      (if isFuncMatches name line then some (stripTrim line) else v)

/-- The callback a handler invokes when its marker arrives. -/
def Handler.doneCb : Handler → Cb
  | .evalH cid _ v => .evalDone cid v
  | .waitH cid _ => .waitDone cid
  | .isFuncH cid _ _ v => .isFuncDone cid v

theorem runHandler_eq (h : Handler) (line : Line) :
    runHandler h line =
      if matchesSyncRegEx h.tok line then (true, h, [.callback h.doneCb])
      else (false, h.step line, []) := by
  cases h <;> rfl

theorem Handler.tok_step (h : Handler) (line : Line) :
    (h.step line).tok = h.tok := by
  cases h <;> rfl

theorem foldl_step_evalH (cid t : Nat) : ∀ (B : List Line) (v : Line),
    B.foldl Handler.step (.evalH cid t v) = .evalH cid t (B.foldl joinStep v) := by
  intro B
  induction B with
  | nil => intro v; rfl
  | cons l ls ih => intro v; exact ih (joinStep v l)

theorem foldl_step_isFuncH (cid t : Nat) (name : Line) :
    ∀ (B : List Line) (v : Option Line),
    B.foldl Handler.step (.isFuncH cid name t v)
      = .isFuncH cid name t
          (B.foldl
            (fun v l => if isFuncMatches name l then some (stripTrim l) else v)
            v) := by
  intro B
  induction B with
  | nil => intro v; rfl
  | cons l ls ih =>
    intro v
    exact ih (if isFuncMatches name l then some (stripTrim l) else v)

theorem matchesSyncRegEx_marker (t n : Nat) :
    matchesSyncRegEx t (promptRep n ++ syncString t) = true :=
  (matchesSyncRegEx_iff t _).mpr ⟨n, rfl⟩

theorem matchesSyncRegEx_syncString (t : Nat) :
    matchesSyncRegEx t (syncString t) = true := by
  have := matchesSyncRegEx_marker t 0
  simpa [promptRep] using this

/-! ## Stepping the handler queue -/

theorem callbackOuts_append (a b : List Output) :
    callbackOuts (a ++ b) = callbackOuts a ++ callbackOuts b := by
  simp [callbackOuts, List.filterMap_append]

theorem onStdout_content (c : Nat) (ev : List (Line → Bool)) (buf : Line)
    (hd : Bool) (snt : List Line) (h : Handler) (rest : List Handler)
    (line : Line) (hm : matchesSyncRegEx h.tok line = false) :
    Runtime.onStdout ⟨c, h :: rest, ev, buf, hd, snt⟩ line
      = (⟨c, h.step line :: rest, ev, buf ++ line, true, snt⟩, []) := by
  simp [Runtime.onStdout, runHandler_eq, hm]

theorem onStdout_marker (c : Nat) (ev : List (Line → Bool)) (buf : Line)
    (hd : Bool) (snt : List Line) (h : Handler) (rest : List Handler)
    (line : Line) (hm : matchesSyncRegEx h.tok line = true) :
    ∃ (buf' : Line) (o : Output),
      Runtime.onStdout ⟨c, h :: rest, ev, buf, hd, snt⟩ line
        = (⟨c, rest, ev, buf', false, snt⟩, [.callback h.doneCb, o])
      ∧ callbackOuts [o] = [] := by
  by_cases hc : (hd || matchesSYNC_REGEX line) = true
  · refine ⟨[], .debug buf, ?_, rfl⟩
    simp [Runtime.onStdout, runHandler_eq, hm, hc]
  · have hd_false : hd = false := by
      cases hd with
      | false => rfl
      | true => simp at hc
    refine ⟨buf, .warn line, ?_, rfl⟩
    subst hd_false
    simp only [Bool.false_or] at hc
    simp [Runtime.onStdout, runHandler_eq, hm, hc]

theorem runStdout_cons (st : RState) (l : Line) (ls : List Line) :
    Runtime.runStdout st (l :: ls)
      = ((Runtime.runStdout (Runtime.onStdout st l).1 ls).1,
         (Runtime.onStdout st l).2
           ++ (Runtime.runStdout (Runtime.onStdout st l).1 ls).2) := rfl

theorem runStdout_append (xs ys : List Line) : ∀ st : RState,
    Runtime.runStdout st (xs ++ ys)
      = ((Runtime.runStdout (Runtime.runStdout st xs).1 ys).1,
         (Runtime.runStdout st xs).2
           ++ (Runtime.runStdout (Runtime.runStdout st xs).1 ys).2) := by
  induction xs with
  | nil => intro st; simp [Runtime.runStdout]
  | cons x xs ih =>
    intro st
    rw [List.cons_append, runStdout_cons, runStdout_cons, ih]
    simp [List.append_assoc]

/-- Running a block of content lines (none matching the front handler's
marker) only updates the front handler's captured state and the
unclassified buffer; no output is produced. -/
theorem runStdout_block : ∀ (B : List Line) (h : Handler) (c : Nat)
    (ev : List (Line → Bool)) (buf : Line) (hd : Bool) (snt : List Line)
    (rest : List Handler),
    (∀ l ∈ B, matchesSyncRegEx h.tok l = false) →
    ∃ (buf' : Line) (hd' : Bool),
      Runtime.runStdout ⟨c, h :: rest, ev, buf, hd, snt⟩ B
        = (⟨c, (B.foldl Handler.step h) :: rest, ev, buf', hd', snt⟩, []) := by
  intro B
  induction B with
  | nil =>
    intro h c ev buf hd snt rest _
    exact ⟨buf, hd, rfl⟩
  | cons l ls ih =>
    intro h c ev buf hd snt rest hB
    have hm : matchesSyncRegEx h.tok l = false := hB l (List.mem_cons_self _ _)
    have hls : ∀ l' ∈ ls, matchesSyncRegEx (h.step l).tok l' = false := by
      intro l' hl'
      rw [Handler.tok_step]
      exact hB l' (List.mem_cons_of_mem _ hl')
    obtain ⟨buf', hd', hrun⟩ :=
      ih (h.step l) c ev (buf ++ l) true snt rest hls
    refine ⟨buf', hd', ?_⟩
    rw [runStdout_cons, onStdout_content c ev buf hd snt h rest l hm]
    simp [hrun]

/-- Running a block of content lines followed by the front handler's
marker pops the handler, invokes exactly its callback (with the folded
captured state), and leaves the handled-flag down. -/
theorem runStdout_block_marker (B : List Line) (m : Line) (h : Handler)
    (c : Nat) (ev : List (Line → Bool)) (buf : Line) (hd : Bool)
    (snt : List Line) (rest : List Handler)
    (hB : ∀ l ∈ B, matchesSyncRegEx h.tok l = false)
    (hm : matchesSyncRegEx h.tok m = true) :
    ∃ (buf' : Line) (outs : List Output),
      Runtime.runStdout ⟨c, h :: rest, ev, buf, hd, snt⟩ (B ++ [m])
        = (⟨c, rest, ev, buf', false, snt⟩, outs)
      ∧ callbackOuts outs = [(B.foldl Handler.step h).doneCb] := by
  obtain ⟨buf1, hd1, hrun1⟩ := runStdout_block B h c ev buf hd snt rest hB
  have htok : (B.foldl Handler.step h).tok = h.tok := by
    clear hrun1 hB hm
    induction B generalizing h with
    | nil => rfl
    | cons l ls ih => rw [List.foldl_cons, ih (h.step l), Handler.tok_step]
  obtain ⟨buf2, o, hrun2, ho⟩ :=
    onStdout_marker c ev buf1 hd1 snt (B.foldl Handler.step h) rest m
      (by rw [htok]; exact hm)
  refine ⟨buf2, [Output.callback (B.foldl Handler.step h).doneCb, o], ?_, ?_⟩
  · rw [runStdout_append, hrun1]
    simp only [List.nil_append]
    rw [runStdout_cons, hrun2]
    simp [Runtime.runStdout]
  · cases o <;> simp_all [callbackOuts]

/-! ## Batches of `evaluate` calls against their stream -/

/-- Unfolding of `Runtime.evaluate`: two sends (the expression, then the
echo-marker for token `commandNumber + 1`) and one enqueued handler. -/
theorem evaluate_eq (cid : Nat) (e : Line) (st : RState) :
    Runtime.evaluate cid e st =
      ⟨st.commandNumber + 2,
       st.inputHandler ++ [.evalH cid (st.commandNumber + 1) []],
       st.eventHandler, st.stdoutBuffer, st.stdoutHandled,
       st.sent ++ [e, Runtime.echo (syncString (st.commandNumber + 1))]⟩ := by
  simp [Runtime.evaluate, Runtime.send, Runtime.sync, Runtime.addInputHandler]

/-- Unfolding of `Expression.isFunction`: two sends (`which <name>`, then
the echo-marker for token `commandNumber + 1`) and one enqueued handler. -/
theorem isFunction_eq (cid : Nat) (name : Line) (st : RState) :
    Expression.isFunction cid name st =
      ⟨st.commandNumber + 2,
       st.inputHandler ++ [.isFuncH cid name (st.commandNumber + 1) none],
       st.eventHandler, st.stdoutBuffer, st.stdoutHandled,
       st.sent ++ ["which ".data ++ name,
                   Runtime.echo (syncString (st.commandNumber + 1))]⟩ := by
  simp [Expression.isFunction, Runtime.send, Runtime.sync,
    Runtime.addInputHandler]

theorem runEvaluates_inputHandler : ∀ (items : List (Nat × Line × List Line))
    (st : RState),
    (runEvaluates st items).inputHandler
      = st.inputHandler ++ handlersOf st.commandNumber items := by
  intro items
  induction items with
  | nil => intro st; simp [runEvaluates, handlersOf]
  | cons it rest ih =>
    intro st
    obtain ⟨cid, e, B⟩ := it
    show (runEvaluates (Runtime.evaluate cid e st) rest).inputHandler = _
    rw [ih, evaluate_eq]
    simp [handlersOf, List.append_assoc]

/-- The FIFO master lemma: a queue holding the batch's `evaluate`
handlers, fed the batch's stream, fires exactly the batch's callbacks, in
call order, each carrying the join of its own block. -/
theorem runStdout_handlersOf : ∀ (items : List (Nat × Line × List Line))
    (c₀ : Nat) (st : RState),
    st.inputHandler = handlersOf c₀ items →
    blocksOk c₀ items = true →
    callbackOuts (Runtime.runStdout st (streamOf c₀ items)).2
      = items.map (fun it => Cb.evalDone it.1 (specJoin it.2.2)) := by
  intro items
  induction items with
  | nil =>
    intro c₀ st hq _
    simp [streamOf, Runtime.runStdout, callbackOuts]
  | cons it rest ih =>
    intro c₀ st hq hok
    obtain ⟨cid, e, B⟩ := it
    obtain ⟨c, q, ev, buf, hd, snt⟩ := st
    simp only at hq
    subst hq
    simp only [blocksOk, Bool.and_eq_true, List.all_eq_true] at hok
    have hB : ∀ l ∈ B,
        matchesSyncRegEx (Handler.evalH cid (c₀ + 1) []).tok l = false := by
      intro l hl
      have := hok.1 l hl
      simpa [Handler.tok] using this
    have hm : matchesSyncRegEx (Handler.evalH cid (c₀ + 1) []).tok
        (syncString (c₀ + 1)) = true := by
      simpa [Handler.tok] using matchesSyncRegEx_syncString (c₀ + 1)
    obtain ⟨buf', outs, hrun, houts⟩ :=
      runStdout_block_marker B (syncString (c₀ + 1))
        (.evalH cid (c₀ + 1) []) c ev buf hd snt
        (handlersOf (c₀ + 2) rest) hB hm
    have hstream : streamOf c₀ ((cid, e, B) :: rest)
        = (B ++ [syncString (c₀ + 1)]) ++ streamOf (c₀ + 2) rest := by
      simp [streamOf, List.append_assoc]
    rw [hstream, runStdout_append]
    simp only [handlersOf]
    rw [hrun]
    simp only [callbackOuts_append]
    rw [houts, ih (c₀ + 2) _ rfl hok.2]
    rw [foldl_step_evalH, Handler.doneCb, (foldl_joinStep B).1]
    rfl

/-! ## Event dispatch lemmas (`onStderr`) -/

/-! ## Event dispatch lemmas (`onStderr`) -/

theorem someDispatch_cons (p : Line → Bool) (ps : List (Line → Bool))
    (i : Nat) (l : Line) :
    Runtime.someDispatch (p :: ps) i l
      = if p l then [Output.evCall i true]
        else Output.evCall i false :: Runtime.someDispatch ps (i + 1) l := rfl

theorem someDispatch_none : ∀ (preds : List (Line → Bool)) (i : Nat) (l : Line),
    (∀ q ∈ preds, q l = false) →
    Runtime.someDispatch preds i l
      = (List.range preds.length).map fun j => Output.evCall (i + j) false := by
  intro preds
  induction preds with
  | nil => intro i l _; rfl
  | cons q qs ih =>
    intro i l hq
    have hql : q l = false := hq q (List.mem_cons_self _ _)
    have hqs : ∀ q' ∈ qs, q' l = false := fun q' hq' =>
      hq q' (List.mem_cons_of_mem _ hq')
    rw [someDispatch_cons, if_neg (by simp [hql]), ih (i + 1) l hqs]
    rw [List.length_cons, List.range_succ_eq_map]
    have hfe : ((fun j => Output.evCall (i + j) false) ∘ Nat.succ)
        = fun j => Output.evCall (i + 1 + j) false := by
      funext j
      simp only [Function.comp]
      congr 1
      omega
    simp only [List.map_cons, List.map_map, Nat.add_zero, hfe]

theorem someDispatch_stops : ∀ (pre : List (Line → Bool))
    (p : Line → Bool) (post : List (Line → Bool)) (i : Nat) (l : Line),
    (∀ q ∈ pre, q l = false) → p l = true →
    Runtime.someDispatch (pre ++ p :: post) i l
      = ((List.range pre.length).map fun j => Output.evCall (i + j) false)
          ++ [Output.evCall (i + pre.length) true] := by
  intro pre
  induction pre with
  | nil =>
    intro p post i l _ hp
    rw [List.nil_append, someDispatch_cons, if_pos hp]
    rfl
  | cons q qs ih =>
    intro p post i l hq hp
    have hql : q l = false := hq q (List.mem_cons_self _ _)
    have hqs : ∀ q' ∈ qs, q' l = false := fun q' hq' =>
      hq q' (List.mem_cons_of_mem _ hq')
    rw [List.cons_append, someDispatch_cons, if_neg (by simp [hql]),
      ih p post (i + 1) l hqs hp]
    rw [List.length_cons, List.range_succ_eq_map]
    have hfe : ((fun j => Output.evCall (i + j) false) ∘ Nat.succ)
        = fun j => Output.evCall (i + 1 + j) false := by
      funext j
      simp only [Function.comp]
      congr 1
      omega
    simp only [List.map_cons, List.map_map, Nat.add_zero, hfe,
      List.cons_append]
    have h2 : i + 1 + qs.length = i + (qs.length + 1) := by omega
    rw [h2]

theorem someDispatch_callbackOuts : ∀ (preds : List (Line → Bool)) (i : Nat)
    (l : Line), callbackOuts (Runtime.someDispatch preds i l) = [] := by
  intro preds
  induction preds with
  | nil => intro i l; rfl
  | cons q qs ih =>
    intro i l
    rw [someDispatch_cons]
    by_cases hql : q l
    · simp [hql, callbackOuts]
    · rw [if_neg hql]
      rw [show (Output.evCall i false :: Runtime.someDispatch qs (i + 1) l)
          = [Output.evCall i false] ++ Runtime.someDispatch qs (i + 1) l from rfl]
      rw [callbackOuts_append, ih]
      rfl

theorem someDispatch_count_exit : ∀ (preds : List (Line → Bool)) (i : Nat)
    (l : Line),
    (Runtime.someDispatch preds i l).count (Output.emit "exit") = 0 := by
  intro preds
  induction preds with
  | nil => intro i l; rfl
  | cons q qs ih =>
    intro i l
    rw [someDispatch_cons]
    by_cases hql : q l
    · simp [hql, List.count_cons]
    · rw [if_neg hql, List.count_cons, ih]
      simp
/-! ## Lifecycle lemmas (`onExit`, `runEvents`) -/

theorem runEvents_cons (st : RState) (e : PEvent) (es : List PEvent) :
    runEvents st (e :: es)
      = ((runEvents (runEventStep st e).1 es).1,
         (runEventStep st e).2 ++ (runEvents (runEventStep st e).1 es).2) := rfl

theorem runEvents_append (xs ys : List PEvent) : ∀ st : RState,
    runEvents st (xs ++ ys)
      = ((runEvents (runEvents st xs).1 ys).1,
         (runEvents st xs).2 ++ (runEvents (runEvents st xs).1 ys).2) := by
  induction xs with
  | nil => intro st; simp [runEvents]
  | cons x xs ih =>
    intro st
    rw [List.cons_append, runEvents_cons, runEvents_cons, ih]
    simp [List.append_assoc]

theorem onStdout_count_exit (st : RState) (l : Line) :
    (Runtime.onStdout st l).2.count (Output.emit "exit") = 0 := by
  obtain ⟨c, q, ev, buf, hd, snt⟩ := st
  cases q with
  | nil =>
    by_cases hc : (hd || matchesSYNC_REGEX l) = true
    · simp [Runtime.onStdout, hc, List.count_cons]
    · rw [Bool.not_eq_true] at hc
      simp [Runtime.onStdout, hc, List.count_cons]
  | cons h rest =>
    by_cases hm : matchesSyncRegEx h.tok l
    · by_cases hc : (hd || matchesSYNC_REGEX l) = true
      · simp [Runtime.onStdout, runHandler_eq, hm, hc, List.count_cons,
          List.count_append]
      · rw [Bool.not_eq_true] at hc
        simp [Runtime.onStdout, runHandler_eq, hm, hc, List.count_cons,
          List.count_append]
    · simp [Runtime.onStdout, runHandler_eq, hm, List.count_cons]

theorem onStderr_count_exit (st : RState) (l : Line) :
    (Runtime.onStderr st l).2.count (Output.emit "exit") = 0 := by
  simp only [Runtime.onStderr, List.count_append]
  rw [someDispatch_count_exit]
  simp [List.count_cons]

/-- The session emits the `exit` signal exactly as many times as the
subprocess's `close` event fires. -/
theorem runEvents_count_exit : ∀ (evs : List PEvent) (st : RState),
    (runEvents st evs).2.count (Output.emit "exit")
      = evs.countP PEvent.isClosed := by
  intro evs
  induction evs with
  | nil => intro st; rfl
  | cons e es ih =>
    intro st
    rw [runEvents_cons]
    simp only [List.count_append, List.countP_cons]
    cases e with
    | outLine l =>
      rw [show runEventStep st (.outLine l) = Runtime.onStdout st l from rfl,
        onStdout_count_exit, ih]
      simp [PEvent.isClosed]
    | errLine l =>
      rw [show runEventStep st (.errLine l) = Runtime.onStderr st l from rfl,
        onStderr_count_exit, ih]
      simp [PEvent.isClosed]
    | closed code =>
      rw [show runEventStep st (.closed code) = Runtime.onExit st code from rfl]
      simp only [Runtime.onExit]
      rw [ih]
      simp [List.count_cons, PEvent.isClosed]
      omega
    | errored =>
      rw [show runEventStep st .errored = Runtime.onError st from rfl]
      simp only [Runtime.onError]
      rw [ih]
      simp [List.count_cons, PEvent.isClosed]

/-- Events that are not primary-stream lines leave the session state
unchanged and invoke no queued handler's callback. -/
theorem runEvents_no_outLine : ∀ (evs : List PEvent) (st : RState),
    evs.all (fun e => !e.isOutLine) = true →
    (runEvents st evs).1 = st ∧ callbackOuts (runEvents st evs).2 = [] := by
  intro evs
  induction evs with
  | nil => intro st _; exact ⟨rfl, rfl⟩
  | cons e es ih =>
    intro st hall
    simp only [List.all_cons, Bool.and_eq_true] at hall
    rw [runEvents_cons]
    cases e with
    | outLine l => simp [PEvent.isOutLine] at hall
    | errLine l =>
      rw [show runEventStep st (.errLine l) = Runtime.onStderr st l from rfl]
      simp only [Runtime.onStderr]
      obtain ⟨h1, h2⟩ := ih st hall.2
      refine ⟨h1, ?_⟩
      rw [callbackOuts_append, callbackOuts_append,
        someDispatch_callbackOuts, h2]
      rfl
    | closed code =>
      rw [show runEventStep st (.closed code) = Runtime.onExit st code from rfl]
      simp only [Runtime.onExit]
      obtain ⟨h1, h2⟩ := ih st hall.2
      refine ⟨h1, ?_⟩
      rw [callbackOuts_append, h2]
      rfl
    | errored =>
      rw [show runEventStep st .errored = Runtime.onError st from rfl]
      simp only [Runtime.onError]
      obtain ⟨h1, h2⟩ := ih st hall.2
      refine ⟨h1, ?_⟩
      rw [callbackOuts_append, h2]
      rfl
/-! ## Token monotonicity lemmas -/

theorem waitSync_eq (cid : Nat) (st : RState) :
    Runtime.waitSync cid st =
      ⟨st.commandNumber + 1,
       st.inputHandler ++ [.waitH cid st.commandNumber],
       st.eventHandler, st.stdoutBuffer, st.stdoutHandled,
       st.sent ++ [Runtime.echo (syncString st.commandNumber)]⟩ := by
  simp [Runtime.waitSync, Runtime.sync, Runtime.send, Runtime.addInputHandler]

theorem waitSend_eq (cid : Nat) (cmd : Line) (st : RState) :
    Runtime.waitSend cid cmd st =
      ⟨st.commandNumber + 2,
       st.inputHandler ++ [.waitH cid (st.commandNumber + 1)],
       st.eventHandler, st.stdoutBuffer, st.stdoutHandled,
       st.sent ++ [cmd, Runtime.echo (syncString (st.commandNumber + 1))]⟩ := by
  simp [Runtime.waitSend, waitSync_eq, Runtime.send, List.append_assoc]

theorem runOp_counter_le (st : RState) (op : Op) :
    st.commandNumber ≤ (runOp st op).1.commandNumber := by
  cases op with
  | sendOp cmd => simp [runOp, Runtime.send]
  | syncOp => simp [runOp, Runtime.sync, Runtime.send]
  | evaluateOp cid e => rw [runOp, evaluate_eq]; dsimp only; omega
  | isFunctionOp cid e => rw [runOp, isFunction_eq]; dsimp only; omega
  | waitSyncOp cid => rw [runOp, waitSync_eq]; dsimp only; omega
  | waitSendOp cid cmd => rw [runOp, waitSend_eq]; dsimp only; omega

theorem runOp_tokens (st : RState) (op : Op) :
    ∀ t ∈ (runOp st op).2,
      st.commandNumber ≤ t ∧ t < (runOp st op).1.commandNumber := by
  cases op with
  | sendOp cmd => simp [runOp]
  | syncOp =>
    simp [runOp, Runtime.sync, Runtime.send]
  | evaluateOp cid e =>
    rw [runOp, evaluate_eq]
    simp only [List.mem_singleton]
    rintro t rfl
    omega
  | isFunctionOp cid e =>
    rw [runOp, isFunction_eq]
    simp only [List.mem_singleton]
    rintro t rfl
    omega
  | waitSyncOp cid =>
    rw [runOp, waitSync_eq]
    simp only [List.mem_singleton]
    rintro t rfl
    omega
  | waitSendOp cid cmd =>
    rw [runOp, waitSend_eq]
    simp only [List.mem_singleton]
    rintro t rfl
    omega

theorem runOp_tokens_short (st : RState) (op : Op) :
    (runOp st op).2 = [] ∨ ∃ t, (runOp st op).2 = [t] := by
  cases op with
  | sendOp cmd => exact Or.inl rfl
  | syncOp => exact Or.inr ⟨st.commandNumber, rfl⟩
  | evaluateOp cid e => exact Or.inr ⟨st.commandNumber + 1, rfl⟩
  | isFunctionOp cid e => exact Or.inr ⟨st.commandNumber + 1, rfl⟩
  | waitSyncOp cid => exact Or.inr ⟨st.commandNumber, rfl⟩
  | waitSendOp cid cmd => exact Or.inr ⟨st.commandNumber + 1, rfl⟩

theorem runOps_counter_le : ∀ (ops : List Op) (st : RState),
    st.commandNumber ≤ (runOps st ops).1.commandNumber := by
  intro ops
  induction ops with
  | nil => intro st; exact le_refl _
  | cons op ops ih =>
    intro st
    calc st.commandNumber ≤ (runOp st op).1.commandNumber :=
          runOp_counter_le st op
      _ ≤ (runOps (runOp st op).1 ops).1.commandNumber := ih _
      _ = (runOps st (op :: ops)).1.commandNumber := rfl

/-- The sync tokens a call sequence obtains are strictly increasing, and
all lie between the session's starting and final command counters. -/
theorem runOps_tokens : ∀ (ops : List Op) (st : RState),
    List.Pairwise (· < ·) (runOps st ops).2
    ∧ ∀ t ∈ (runOps st ops).2,
        st.commandNumber ≤ t ∧ t < (runOps st ops).1.commandNumber := by
  intro ops
  induction ops with
  | nil => intro st; exact ⟨List.Pairwise.nil, by simp [runOps]⟩
  | cons op ops ih =>
    intro st
    have hsplit : (runOps st (op :: ops)).2
        = (runOp st op).2 ++ (runOps (runOp st op).1 ops).2 := rfl
    have hfin : (runOps st (op :: ops)).1 = (runOps (runOp st op).1 ops).1 := rfl
    obtain ⟨ihp, ihb⟩ := ih (runOp st op).1
    constructor
    · rw [hsplit]
      apply List.pairwise_append.mpr
      refine ⟨?_, ihp, ?_⟩
      · rcases runOp_tokens_short st op with h | ⟨t, h⟩ <;>
          simp [h]
      · intro a ha b hb
        have h1 := (runOp_tokens st op a ha).2
        have h2 := (ihb b hb).1
        omega
    · intro t ht
      rw [hsplit] at ht
      rw [hfin]
      rcases List.mem_append.mp ht with h | h
      · have h1 := runOp_tokens st op t h
        have h2 := runOps_counter_le ops (runOp st op).1
        exact ⟨h1.1, by omega⟩
      · have h1 := ihb t h
        have h2 := runOp_counter_le st op
        exact ⟨by omega, h1.2⟩
/-! ## The claims -/

/-- C1: for every batch of `evaluate` calls issued on one session without
waiting for prior callbacks, the callbacks fire in call order, and each
receives exactly the value accumulated from the lines delivered strictly
between its own command's lines and its own trailing marker (the handler
queue is strict FIFO: each line is tested only against the front handler,
which is removed exactly when its marker matches). -/
theorem claim_C1_evaluate_fifo (c : Nat) (items : List (Nat × Line × List Line))
    (hok : blocksOk c items = true) :
    callbackOuts (Runtime.runStdout (runEvaluates (initState c) items)
        (streamOf c items)).2
      = items.map (fun it => Cb.evalDone it.1 (specJoin it.2.2)) := by
  apply runStdout_handlersOf items c _ _ hok
  rw [runEvaluates_inputHandler]
  simp [initState]

/-- C5: tokens issued by the synchronization primitive over any sequence
of session API calls are strictly increasing and never repeat. -/
theorem claim_C5_tokens (c : Nat) (ops : List Op) :
    List.Pairwise (· < ·) (runOps (initState c) ops).2
    ∧ ((runOps (initState c) ops).2).Nodup := by
  obtain ⟨hp, -⟩ := runOps_tokens ops (initState c)
  exact ⟨hp, hp.imp Nat.ne_of_lt⟩

/-- C6: once the subprocess's `close` (Exited) or `error` (Errored) event
has fired, no queued handler's callback is ever invoked afterward (the
stream delivers no further primary lines once the process is gone), the
pending handlers are left in the queue untouched, and the `exit` signal
is emitted exactly once over the whole trace. -/
theorem claim_C6_exit (st : RState) (pre post : List PEvent) (code : Int)
    (hpost : post.all (fun e => !e.isOutLine) = true)
    (honce : (pre ++ post).all (fun e => !e.isClosed) = true) :
    callbackOuts (runEvents (runEvents st pre).1 (.closed code :: post)).2 = []
    ∧ (runEvents (runEvents st pre).1 (.closed code :: post)).1.inputHandler
        = (runEvents st pre).1.inputHandler
    ∧ callbackOuts (runEvents (runEvents st pre).1 (.errored :: post)).2 = []
    ∧ (runEvents (runEvents st pre).1 (.errored :: post)).1.inputHandler
        = (runEvents st pre).1.inputHandler
    ∧ (runEvents st (pre ++ .closed code :: post)).2.count (Output.emit "exit")
        = 1 := by
  simp only [List.all_append, Bool.and_eq_true] at honce
  obtain ⟨hstate, hcb⟩ := runEvents_no_outLine post (runEvents st pre).1 hpost
  refine ⟨?_, ?_, ?_, ?_, ?_⟩
  · rw [runEvents_cons,
      show runEventStep (runEvents st pre).1 (.closed code)
        = Runtime.onExit (runEvents st pre).1 code from rfl]
    simp only [Runtime.onExit]
    rw [callbackOuts_append, hcb]
    rfl
  · rw [runEvents_cons,
      show runEventStep (runEvents st pre).1 (.closed code)
        = Runtime.onExit (runEvents st pre).1 code from rfl]
    simp only [Runtime.onExit]
    rw [hstate]
  · rw [runEvents_cons,
      show runEventStep (runEvents st pre).1 .errored
        = Runtime.onError (runEvents st pre).1 from rfl]
    simp only [Runtime.onError]
    rw [callbackOuts_append, hcb]
    rfl
  · rw [runEvents_cons,
      show runEventStep (runEvents st pre).1 .errored
        = Runtime.onError (runEvents st pre).1 from rfl]
    simp only [Runtime.onError]
    rw [hstate]
  · rw [runEvents_count_exit]
    rw [List.countP_append, List.countP_cons]
    have h1 : pre.countP PEvent.isClosed = 0 := by
      rw [List.countP_eq_zero]
      intro e he
      have := List.all_eq_true.mp honce.1 e he
      simpa using this
    have h2 : post.countP PEvent.isClosed = 0 := by
      rw [List.countP_eq_zero]
      intro e he
      have := List.all_eq_true.mp honce.2 e he
      simpa using this
    simp [h1, h2, PEvent.isClosed]

theorem claim_C6_witness :
    callbackOuts (runEvents
        (runEvents (⟨0, [Handler.evalH 0 1 []], [], [], false, []⟩ : RState) []).1
        (PEvent.closed 0 :: [PEvent.errLine "E".data])).2 = []
    ∧ (runEvents
        (runEvents (⟨0, [Handler.evalH 0 1 []], [], [], false, []⟩ : RState) []).1
        (PEvent.closed 0 :: [PEvent.errLine "E".data])).1.inputHandler
        = (runEvents (⟨0, [Handler.evalH 0 1 []], [], [], false, []⟩ : RState) []).1.inputHandler
    ∧ callbackOuts (runEvents
        (runEvents (⟨0, [Handler.evalH 0 1 []], [], [], false, []⟩ : RState) []).1
        (PEvent.errored :: [PEvent.errLine "E".data])).2 = []
    ∧ (runEvents
        (runEvents (⟨0, [Handler.evalH 0 1 []], [], [], false, []⟩ : RState) []).1
        (PEvent.errored :: [PEvent.errLine "E".data])).1.inputHandler
        = (runEvents (⟨0, [Handler.evalH 0 1 []], [], [], false, []⟩ : RState) []).1.inputHandler
    ∧ (runEvents (⟨0, [Handler.evalH 0 1 []], [], [], false, []⟩ : RState)
        ([] ++ PEvent.closed 0 :: [PEvent.errLine "E".data])).2.count
          (Output.emit "exit") = 1 :=
  claim_C6_exit ⟨0, [Handler.evalH 0 1 []], [], [], false, []⟩ []
    [PEvent.errLine "E".data] 0 (by decide) (by decide)

/-- C7: every line treated as handler content has any number of leading
prompt repetitions stripped before interpretation (so
`debug> debug> some text` becomes `some text`), and the marker matcher
for a token accepts exactly the lines that are some number of prompt
repetitions followed by the marker text. -/
theorem claim_C7_prompt_normalization :
    (∀ (n : Nat) (s : Line), stripTrim (promptRep n ++ s) = stripTrim s)
    ∧ stripTrim ("debug> debug> some text".data) = "some text".data
    ∧ (∀ (t : Nat) (line : Line),
        matchesSyncRegEx t line = true
          ↔ ∃ m, line = promptRep m ++ syncString t) :=
  ⟨stripTrim_promptRep, by decide, matchesSyncRegEx_iff⟩

/-- C9: the matcher for token `t` accepts the marker line for token `t'`
(under any number of leading prompt repetitions) iff `t = t'`; in
particular the matcher for token 1 rejects the marker for token 13 and
vice versa. -/
theorem claim_C9_matcher :
    (∀ (t t' n : Nat),
      matchesSyncRegEx t (promptRep n ++ syncString t') = true ↔ t = t')
    ∧ matchesSyncRegEx 1 (syncString 13) = false
    ∧ matchesSyncRegEx 13 (syncString 1) = false := by
  refine ⟨?_, by decide, by decide⟩
  intro t t' n
  constructor
  · intro h
    obtain ⟨m, hm⟩ := (matchesSyncRegEx_iff t _).mp h
    obtain ⟨-, h2⟩ := promptRep_factor n m _ _
      (not_prompt_prefix_syncString t') (not_prompt_prefix_syncString t) hm
    exact (syncString_injective h2).symm
  · rintro rfl
    exact matchesSyncRegEx_marker t n
theorem claim_C1_witness :
    blocksOk 0 [(0, "1+1".data, ["ans = 2".data]),
                (1, "2+2".data, ["ans = 4".data])] = true
    ∧ callbackOuts (Runtime.runStdout
        (runEvaluates (initState 0)
          [(0, "1+1".data, ["ans = 2".data]), (1, "2+2".data, ["ans = 4".data])])
        (streamOf 0 [(0, "1+1".data, ["ans = 2".data]),
                     (1, "2+2".data, ["ans = 4".data])])).2
      = [Cb.evalDone 0 "ans = 2".data, Cb.evalDone 1 "ans = 4".data] :=
  ⟨by decide, (claim_C1_evaluate_fifo 0 _ (by decide)).trans (by decide)⟩

/-- C2 counterexample: the claim describes the delivered value as the
newline-join of the non-empty PROMPT-STRIPPED content lines, but the
source also whitespace-trims each line (`.trim()` after the prompt
replacement).  Feeding the content line `" ans = 2"` (leading space, no
prompt), the claim's join is `" ans = 2"` while the callback actually
receives `"ans = 2"`. -/
theorem claim_C2_counterexample :
    callbackOuts (Runtime.runStdout
        (Runtime.evaluate 0 "1+1".data (initState 0))
        [" ans = 2".data, syncString 1]).2
      = [Cb.evalDone 0 "ans = 2".data]
    ∧ specJoinStrippedOnly [" ans = 2".data] = " ans = 2".data
    ∧ "ans = 2".data ≠ " ans = 2".data := by
  refine ⟨by decide, by decide, by decide⟩

/-- C2 (amended): for every `evaluate` call followed by primary-stream
delivery of content lines and then the marker line for the call's token,
the callback is invoked exactly once with the newline-join of the
non-empty prompt-stripped AND whitespace-trimmed content lines (so
`"ans = 2"` then the marker yields exactly `"ans = 2"`, and the marker
alone yields the empty string). -/
theorem claim_C2_amended (c cid : Nat) (e : Line) (B : List Line)
    (hok : B.all (fun l => !matchesSyncRegEx (c + 1) l) = true) :
    callbackOuts (Runtime.runStdout (Runtime.evaluate cid e (initState c))
        (B ++ [syncString (c + 1)])).2
      = [Cb.evalDone cid (specJoin B)] := by
  have h := runStdout_handlersOf [(cid, e, B)] c
      (Runtime.evaluate cid e (initState c))
      (by
        rw [show Runtime.evaluate cid e (initState c)
            = runEvaluates (initState c) [(cid, e, B)] from rfl,
          runEvaluates_inputHandler]
        simp [initState])
      (by simp [blocksOk, hok])
  simpa [streamOf] using h

theorem claim_C2_witness :
    (["ans = 2".data] : List Line).all (fun l => !matchesSyncRegEx 1 l) = true
    ∧ callbackOuts (Runtime.runStdout
        (Runtime.evaluate 0 "1+1".data (initState 0))
        (["ans = 2".data] ++ [syncString 1])).2
      = [Cb.evalDone 0 "ans = 2".data]
    ∧ callbackOuts (Runtime.runStdout
        (Runtime.evaluate 1 "x=1;".data (initState 0))
        ([] ++ [syncString 1])).2
      = [Cb.evalDone 1 []] :=
  ⟨by decide, (claim_C2_amended 0 0 "1+1".data ["ans = 2".data]
      (by decide)).trans (by decide),
    (claim_C2_amended 0 1 "x=1;".data [] (by decide)).trans (by decide)⟩

/-- C3 counterexample: the claim says the handler remembers the FIRST
line matching the descriptor pattern, but the source overwrites `val` on
every match (`val = str...` under `if (match !== null)`), so with two
matching lines the callback receives the LAST one. -/
theorem claim_C3_counterexample :
    callbackOuts (Runtime.runStdout
        (Expression.isFunction 0 "sin".data (initState 0))
        ["'sin' is a function from the file /a/sin.m".data,
         "'sin' is a function from the file /b/sin.m".data,
         syncString 1]).2
      = [Cb.isFuncDone 0
          (some "'sin' is a function from the file /b/sin.m".data)]
    ∧ ("'sin' is a function from the file /b/sin.m".data : Line)
        ≠ "'sin' is a function from the file /a/sin.m".data := by
  refine ⟨by decide, by decide⟩

/-- C3 (amended): the `isFunction` handler tests each primary-stream line
against the fixed "is a function from the file" pattern, remembering the
LAST matching line; when the marker for its token arrives, the callback
receives that remembered descriptor (prompt-stripped and trimmed), or the
explicit not-found value (`none`) if no line matched. -/
theorem claim_C3_amended (c cid : Nat) (name : Line) (B : List Line)
    (hok : B.all (fun l => !matchesSyncRegEx (c + 1) l) = true) :
    callbackOuts (Runtime.runStdout
        (Expression.isFunction cid name (initState c))
        (B ++ [syncString (c + 1)])).2
      = [Cb.isFuncDone cid
          ((B.reverse.find? (isFuncMatches name)).map stripTrim)] := by
  have hB : ∀ l ∈ B,
      matchesSyncRegEx (Handler.isFuncH cid name (c + 1) none).tok l = false := by
    intro l hl
    have := List.all_eq_true.mp hok l hl
    simpa [Handler.tok] using this
  have hm : matchesSyncRegEx (Handler.isFuncH cid name (c + 1) none).tok
      (syncString (c + 1)) = true := matchesSyncRegEx_syncString (c + 1)
  rw [isFunction_eq]
  simp only [initState, List.nil_append]
  obtain ⟨buf', outs, hrun, houts⟩ :=
    runStdout_block_marker B (syncString (c + 1))
      (.isFuncH cid name (c + 1) none) (c + 2) [] [] false
      ["which ".data ++ name, Runtime.echo (syncString (c + 1))] [] hB hm
  rw [hrun, houts, foldl_step_isFuncH]
  rw [show (Handler.isFuncH cid name (c + 1)
      (B.foldl (fun v l => if isFuncMatches name l then some (stripTrim l)
        else v) none)).doneCb
    = Cb.isFuncDone cid
        (B.foldl (fun v l => if isFuncMatches name l then some (stripTrim l)
          else v) none) from rfl]
  rw [foldl_lastMatch name B none, Option.or_none]

theorem claim_C3_witness :
    (["'sin' is a built-in function from the file /x/sin.m".data] :
        List Line).all (fun l => !matchesSyncRegEx 1 l) = true
    ∧ callbackOuts (Runtime.runStdout
        (Expression.isFunction 0 "sin".data (initState 0))
        (["'sin' is a built-in function from the file /x/sin.m".data]
          ++ [syncString 1])).2
      = [Cb.isFuncDone 0
          (some "'sin' is a built-in function from the file /x/sin.m".data)]
    ∧ callbackOuts (Runtime.runStdout
        (Expression.isFunction 1 "sin".data (initState 0))
        (["ans = 4".data] ++ [syncString 1])).2
      = [Cb.isFuncDone 1 none] :=
  ⟨by decide,
   (claim_C3_amended 0 0 "sin".data
      ["'sin' is a built-in function from the file /x/sin.m".data]
      (by decide)).trans (by decide),
   (claim_C3_amended 0 1 "sin".data ["ans = 4".data]
      (by decide)).trans (by decide)⟩

/-- C4 counterexample: the claim says the secondary-stream line is
forwarded to the diagnostics sink as a warning IF AND ONLY IF no
registered predicate returned true, but `Runtime.onStderr` calls
`this.warn(data)` unconditionally after the `some` dispatch: here the
single registered predicate returns true and the warning is forwarded
anyway. -/
theorem claim_C4_counterexample :
    (Runtime.onStderr ⟨0, [], [fun _ => true], [], false, []⟩ "oops".data).2
      = [Output.evCall 0 true, Output.warn "oops".data]
    ∧ ((fun (_ : Line) => true) "oops".data = true) :=
  ⟨rfl, rfl⟩

/-- C4 (amended): on each secondary-stream line the registered event
predicates are evaluated in registration order and evaluation stops at
the first one returning true (later-registered predicates never see the
line); the line is then ALWAYS forwarded to the diagnostics sink as a
warning, whether or not a predicate consumed it. -/
theorem claim_C4_amended :
    (∀ (st : RState) (pre post : List (Line → Bool)) (p : Line → Bool)
        (l : Line),
      st.eventHandler = pre ++ p :: post →
      (∀ q ∈ pre, q l = false) → p l = true →
      (Runtime.onStderr st l).2
        = (((List.range pre.length).map fun j => Output.evCall j false)
            ++ [Output.evCall pre.length true]) ++ [Output.warn l])
    ∧ (∀ (st : RState) (l : Line),
        (∀ q ∈ st.eventHandler, q l = false) →
        (Runtime.onStderr st l).2
          = ((List.range st.eventHandler.length).map fun j =>
              Output.evCall j false) ++ [Output.warn l]) := by
  constructor
  · intro st pre post p l hev hpre hp
    simp only [Runtime.onStderr, hev]
    rw [someDispatch_stops pre p post 0 l hpre hp]
    simp [Nat.zero_add]
  · intro st l hall
    simp only [Runtime.onStderr]
    rw [someDispatch_none st.eventHandler 0 l hall]
    simp [Nat.zero_add]

/-- C8 counterexample: the claim says every primary-stream line arriving
with an empty handler queue is forwarded unchanged to the diagnostics
sink; but a line matching `SYNC_REGEX` (a stray marker) makes the source
flush the (here empty) unclassified buffer instead, and the line's own
text reaches no output at all. -/
theorem claim_C8_counterexample :
    (Runtime.onStdout (initState 0) (syncString 0)).2 = [Output.debug []]
    ∧ Output.warn (syncString 0) ∉ (Runtime.onStdout (initState 0)
        (syncString 0)).2
    ∧ syncString 0 ≠ [] := by
  refine ⟨by decide, by decide, by decide⟩

/-- C8 (amended): a primary-stream line arriving while the handler queue
is empty is never buffered (the state is unchanged or merely flushed),
never raises an error (no signal is emitted and no callback is invoked),
and is forwarded unchanged to the diagnostics sink as a warning exactly
when the handled-flag is down and the line does not look like a sync
marker; otherwise the pending unclassified buffer is flushed and the line
itself is dropped. -/
theorem claim_C8_amended (st : RState) (line : Line)
    (hq : st.inputHandler = []) :
    ((Runtime.onStdout st line).1 = st
      ∨ (Runtime.onStdout st line).1
          = { st with stdoutBuffer := [], stdoutHandled := false })
    ∧ callbackOuts (Runtime.onStdout st line).2 = []
    ∧ (∀ sg, Output.emit sg ∉ (Runtime.onStdout st line).2)
    ∧ (Output.warn line ∈ (Runtime.onStdout st line).2
        ↔ (st.stdoutHandled = false ∧ matchesSYNC_REGEX line = false)) := by
  obtain ⟨c, q, ev, buf, hd, snt⟩ := st
  simp only at hq
  subst hq
  by_cases hc : (hd || matchesSYNC_REGEX line) = true
  · have hout : Runtime.onStdout ⟨c, [], ev, buf, hd, snt⟩ line
        = (⟨c, [], ev, [], false, snt⟩, [.debug buf]) := by
      simp [Runtime.onStdout, hc]
    rw [hout]
    refine ⟨Or.inr rfl, rfl, ?_, ?_⟩
    · intro sg hmem
      simp at hmem
    · simp only [List.mem_singleton]
      constructor
      · intro h
        exact absurd h (by simp)
      · rintro ⟨h1, h2⟩
        subst h1
        simp [h2] at hc
  · have hd' : hd = false := by
      cases hd
      · rfl
      · simp at hc
    subst hd'
    have hM : matchesSYNC_REGEX line = false := by
      simpa using hc
    have hout : Runtime.onStdout ⟨c, [], ev, buf, false, snt⟩ line
        = (⟨c, [], ev, buf, false, snt⟩, [.warn line]) := by
      simp [Runtime.onStdout, hM]
    rw [hout]
    refine ⟨Or.inl rfl, rfl, ?_, ?_⟩
    · intro sg hmem
      simp at hmem
    · simp [hM]

theorem claim_C8_witness :
    Output.warn "hello".data ∈ (Runtime.onStdout (initState 0)
        "hello".data).2
      ↔ ((initState 0).stdoutHandled = false
          ∧ matchesSYNC_REGEX "hello".data = false) :=
  (claim_C8_amended (initState 0) "hello".data rfl).2.2.2

/-- C10 counterexample: for the empty console expression the first
command sent IS the full expression text (both are the empty string), so
"the full expression text is never sent" fails at `expression = ""`. -/
theorem claim_C10_counterexample :
    ([] : Line) ∈ (Expression.evaluate 0 ([] : Line) true (initState 0)).sent
    ∧ (Expression.evaluate 0 ([] : Line) true (initState 0)).sent.head?
        = some ([] : Line) := by decide

/-- C10 (amended): in console mode `Expression.evaluate` sends the
expression with its first character removed (followed by the echo-marker
command), and whenever the expression is nonempty the sent command
differs from the full expression text. -/
theorem claim_C10_amended (st : RState) (cid : Nat) (e : Line) :
    (Expression.evaluate cid e true st).sent
      = st.sent ++ [e.drop 1, Runtime.echo (syncString (st.commandNumber + 1))]
    ∧ (e ≠ [] → e.drop 1 ≠ e) := by
  constructor
  · rw [show Expression.evaluate cid e true st
        = Runtime.evaluate cid (e.drop 1) st from rfl, evaluate_eq]
  · intro he hcontra
    have hlen := congrArg List.length hcontra
    rw [List.length_drop] at hlen
    have : e.length = 0 := by omega
    exact he (List.length_eq_zero.mp this)
